import Mathlib

/-!
# Verification of the ccrank aggregation and ranking engine

Shallow embedding of the leaderboard engine of the ccrank repository
(`packages/web/convex/leaderboard.ts`, plus the date-range filter of
`packages/web/convex/stats.ts`), together with proofs about it.

Modelling conventions:
* JavaScript numbers are modelled exactly: token counters, timestamps and
  ranks as `Int`, costs as `Rat`.
* Date strings stay `String`s where the source compares them as strings
  (all window filters); the `Date` arithmetic of the window resolver is
  modelled on calendar-day numbers (`Int`, days since 1970-01-01), which is
  exactly what `setUTCDate`/`toISOString` arithmetic computes.  The source
  reads the wall clock (`new Date()`); following the spec's design note the
  clock is injected as an explicit `today` parameter.
* JavaScript `Map`s (and objects used as maps) are modelled as association
  lists in insertion order: `Map.set` updates an existing key in place and
  appends a fresh key, `Map.get` returns the value of the unique matching
  key.  JavaScript `Set`s are duplicate-free lists in insertion order.
* `Array.prototype.sort` with a consistent comparator is stable; it is
  modelled by the stable `List.insertionSort` with the comparator's order.
-/

namespace CCRank

/-- JavaScript `Map.get` on an insertion-ordered association list:
the value of the first (and, for maps built by `mapSet`, unique) matching
key. -/
def mapGet {κ ν : Type} [DecidableEq κ] : List (κ × ν) → κ → Option ν
  | [], _ => none
  | (a, b) :: r, k => if a = k then some b else mapGet r k

/-- JavaScript `Map.set`: update an existing key in place (keeping its
insertion position), otherwise append the new key at the end. -/
def mapSet {κ ν : Type} [DecidableEq κ] : List (κ × ν) → κ → ν → List (κ × ν)
  | [], k, val => [(k, val)]
  | (a, b) :: r, k, val => if a = k then (a, val) :: r else (a, b) :: mapSet r k val

/-- JavaScript `Set.add`: append unless already present. -/
def setAdd {α : Type} [DecidableEq α] (s : List α) (a : α) : List α :=
  if a ∈ s then s else s ++ [a]

/-- One `dailyStats` document (table `dailyStats` of `convex/schema.ts`). -/
structure DailyStat where
  userId : String
  date : String
  utcDate : Option String
  inputTokens : Int
  outputTokens : Int
  cacheCreationTokens : Int
  cacheReadTokens : Int
  totalTokens : Int
  totalCost : Rat
  modelsUsed : List String
  updatedAt : Int
deriving DecidableEq

/-- One `users` document (the fields the engine reads). -/
structure User where
  id : String
  slackUserId : String
  slackTeamId : String
  displayName : Option String
deriving DecidableEq

/-- Model of `getEffectiveDate` (leaderboard.ts line 38): `stat.utcDate ?? stat.date`. -/
def getEffectiveDate (s : DailyStat) : String :=
  s.utcDate.getD s.date

/-- Model of `ctx.db.get(id)` on the `users` table, modelled as lookup in a user store. -/
def userLookup (users : List User) (uid : String) : Option User :=
  users.find? (fun u => u.id = uid)

/-- Generic step of a JavaScript group-by loop: `m.get(key a)` and either
accumulate into the existing aggregate or `m.set` a fresh one. -/
def groupStep {α κ β : Type} [DecidableEq κ] (key : α → κ) (init : α → β)
    (acc : β → α → β) (m : List (κ × β)) (a : α) : List (κ × β) :=
  mapSet m (key a)
    (match mapGet m (key a) with
     | some b => acc b a
     | none => init a)

/-- A JavaScript group-by loop over a list, starting from an empty map. -/
def groupFold {α κ β : Type} [DecidableEq κ] (key : α → κ) (init : α → β)
    (acc : β → α → β) (l : List α) : List (κ × β) :=
  l.foldl (groupStep key init acc) []

/-- The per-user aggregate of `buildLeaderboardFromStats`
(leaderboard.ts lines 113-125). -/
structure Aggregate where
  inputTokens : Int
  outputTokens : Int
  cacheCreationTokens : Int
  cacheReadTokens : Int
  totalTokens : Int
  totalCost : Rat
  modelsUsed : List String
  lastSyncedAt : Int
deriving DecidableEq

/-- The `else` branch of the aggregation loop (lines 142-153): a fresh
aggregate from a single stat; `new Set(stat.modelsUsed)` de-duplicates in
first-occurrence order. -/
def initAgg (s : DailyStat) : Aggregate where
  inputTokens := s.inputTokens
  outputTokens := s.outputTokens
  cacheCreationTokens := s.cacheCreationTokens
  cacheReadTokens := s.cacheReadTokens
  totalTokens := s.totalTokens
  totalCost := s.totalCost
  modelsUsed := s.modelsUsed.foldl setAdd []
  lastSyncedAt := s.updatedAt

/-- The `if (existing)` branch of the aggregation loop (lines 129-141). -/
def accumStat (a : Aggregate) (s : DailyStat) : Aggregate where
  inputTokens := a.inputTokens + s.inputTokens
  outputTokens := a.outputTokens + s.outputTokens
  cacheCreationTokens := a.cacheCreationTokens + s.cacheCreationTokens
  cacheReadTokens := a.cacheReadTokens + s.cacheReadTokens
  totalTokens := a.totalTokens + s.totalTokens
  totalCost := a.totalCost + s.totalCost
  modelsUsed := s.modelsUsed.foldl setAdd a.modelsUsed
  lastSyncedAt := if s.updatedAt > a.lastSyncedAt then s.updatedAt else a.lastSyncedAt

/-- The date-range filter of `buildLeaderboardFromStats`
(lines 107-110): keep records with `startDate ≤ effectiveDate ≤ endDate`,
string comparison. -/
def windowFilter (stats : List DailyStat) (startDate endDate : String) : List DailyStat :=
  stats.filter fun s => startDate ≤ getEffectiveDate s ∧ getEffectiveDate s ≤ endDate

/-- The `userAggregates` map of `buildLeaderboardFromStats`
(lines 127-154), keyed by `userId` in first-seen order. -/
def buildAggregates (stats : List DailyStat) : List (String × Aggregate) :=
  groupFold (fun s => s.userId) initAgg accumStat stats

/-- Model of `rankChange`: JavaScript `number | "new" | null`. -/
inductive RankChange where
  | num (d : Int)
  | new
  | null
deriving DecidableEq

/-- The `LeaderboardEntry` record type (leaderboard.ts lines 6-20). -/
structure LeaderboardEntry where
  userId : String
  displayName : Option String
  slackUserId : String
  inputTokens : Int
  outputTokens : Int
  cacheCreationTokens : Int
  cacheReadTokens : Int
  totalTokens : Int
  totalCost : Rat
  modelsUsed : List String
  rank : Int
  rankChange : RankChange
  lastSyncedAt : Int
deriving DecidableEq

/-- Model of `if (teamId && user.slackTeamId !== teamId) continue;` (line 172):
the team filter is skipped when `teamId` is absent or the empty string
(JavaScript falsiness). -/
def teamSkip (teamId : Option String) (u : User) : Bool :=
  match teamId with
  | none => false
  | some t => !(t = "") && !(u.slackTeamId = t)

/-- Lines 174-188: the entry pushed for one user; `rank` starts at 0 and
`rankChange` at `null`. -/
def entryOfAgg (uid : String) (u : User) (a : Aggregate) : LeaderboardEntry where
  userId := uid
  displayName := u.displayName
  slackUserId := u.slackUserId
  inputTokens := a.inputTokens
  outputTokens := a.outputTokens
  cacheCreationTokens := a.cacheCreationTokens
  cacheReadTokens := a.cacheReadTokens
  totalTokens := a.totalTokens
  totalCost := a.totalCost
  modelsUsed := a.modelsUsed
  rank := 0
  rankChange := RankChange.null
  lastSyncedAt := a.lastSyncedAt

/-- Lines 156-189: decorate aggregates with user info, skipping users
missing from the store and users filtered out by `teamId`; iteration is in
map insertion order. -/
def entriesFromAggs (users : List User) (teamId : Option String)
    (aggs : List (String × Aggregate)) : List LeaderboardEntry :=
  aggs.filterMap fun p =>
    match userLookup users p.1 with
    | none => none
    | some u => if teamSkip teamId u then none else some (entryOfAgg p.1 u p.2)

/-- The sort order of line 192: `(a, b) => b.totalCost - a.totalCost`,
i.e. descending total cost. -/
def costGE (a b : LeaderboardEntry) : Prop :=
  b.totalCost ≤ a.totalCost

instance : DecidableRel costGE := fun a b =>
  inferInstanceAs (Decidable (b.totalCost ≤ a.totalCost))

instance : IsTotal LeaderboardEntry costGE :=
  ⟨fun a b => le_total b.totalCost a.totalCost⟩

instance : IsTrans LeaderboardEntry costGE :=
  ⟨fun _ _ _ h1 h2 => le_trans h2 h1⟩

/-- Line 192: `leaderboard.sort((a, b) => b.totalCost - a.totalCost)`;
JavaScript's stable sort modelled by a stable sort with the same order. -/
def sortByCostDesc (l : List LeaderboardEntry) : List LeaderboardEntry :=
  List.insertionSort costGE l

/-- Lines 195-197: `leaderboard.forEach((entry, index) => entry.rank = index + 1)`. -/
def assignRanks : List LeaderboardEntry → Nat → List LeaderboardEntry
  | [], _ => []
  | e :: r, i => { e with rank := (i : Int) + 1 } :: assignRanks r (i + 1)

/-- The ranking step of `buildLeaderboardFromStats` (lines 191-199). -/
def rankEntries (l : List LeaderboardEntry) : List LeaderboardEntry :=
  assignRanks (sortByCostDesc l) 0

/-- Model of `buildLeaderboardFromStats` (lines 99-200): filter → aggregate →
decorate → sort → rank. -/
def buildLeaderboardFromStats (stats : List DailyStat) (users : List User)
    (startDate endDate : String) (teamId : Option String) : List LeaderboardEntry :=
  rankEntries (entriesFromAggs users teamId (buildAggregates (windowFilter stats startDate endDate)))

/-- Model of `computeRankChanges` (lines 203-220), returning the updated current
list instead of mutating it. -/
def computeRankChanges (current previous : List LeaderboardEntry) : List LeaderboardEntry :=
  let previousRankMap := previous.foldl (fun m e => mapSet m e.userId e.rank)
    ([] : List (String × Int))
  current.map fun e =>
    match mapGet previousRankMap e.userId with
    | none => { e with rankChange := RankChange.new }
    | some prevRank => { e with rankChange := RankChange.num (prevRank - e.rank) }

/-- Model of `args.limit ? list.slice(0, args.limit) : list`: a supplied limit of `0`
is falsy in JavaScript, so it returns the whole list. -/
def applyLimit (limit : Option Nat) (l : List LeaderboardEntry) : List LeaderboardEntry :=
  match limit with
  | none => l
  | some n => if n = 0 then l else l.take n

/-- Model of `getWeeklyLeaderboard` (lines 395-413); the clock-derived date strings
`getDaysAgo(7)`, `getTomorrow()`, `getDaysAgo(14)` are injected as
parameters. -/
def getWeeklyLeaderboard (stats : List DailyStat) (users : List User)
    (daysAgo7 tomorrow daysAgo14 : String) (teamId : Option String)
    (limit : Option Nat) : List LeaderboardEntry :=
  let current := buildLeaderboardFromStats stats users daysAgo7 tomorrow teamId
  let previous := buildLeaderboardFromStats stats users daysAgo14 daysAgo7 teamId
  applyLimit limit (computeRankChanges current previous)

/-- Model of `getAllTimeLeaderboard` (lines 441-461): window `["2000-01-01",
tomorrow]`, no previous period, `rankChange` untouched. -/
def getAllTimeLeaderboard (stats : List DailyStat) (users : List User)
    (tomorrow : String) (teamId : Option String) (limit : Option Nat) :
    List LeaderboardEntry :=
  applyLimit limit (buildLeaderboardFromStats stats users "2000-01-01" tomorrow teamId)

/-- The `stats` sub-object of a `getUserRank` result (lines 525-533). -/
structure UserRankStats where
  inputTokens : Int
  outputTokens : Int
  cacheCreationTokens : Int
  cacheReadTokens : Int
  totalTokens : Int
  totalCost : Rat
  modelsUsed : List String
deriving DecidableEq

/-- A `getUserRank` result (lines 514-534). -/
structure UserRankResult where
  rank : Option Int
  totalParticipants : Nat
  stats : Option UserRankStats
deriving DecidableEq

/-- Model of `getUserRank` (lines 466-536); the period-resolved window bounds are
injected as `startDate`/`endDate`.  Returns `none` when the user id is not
in the store, and a result with `rank = null`, `stats = null` when the
user has no entry in their team's leaderboard. -/
def getUserRank (stats : List DailyStat) (users : List User) (uid : String)
    (startDate endDate : String) : Option UserRankResult :=
  match userLookup users uid with
  | none => none
  | some user =>
    let leaderboard := buildLeaderboardFromStats stats users startDate endDate
      (some user.slackTeamId)
    match leaderboard.find? (fun e => e.userId = uid) with
    | none => some ⟨none, leaderboard.length, none⟩
    | some e => some ⟨some e.rank, leaderboard.length,
        some ⟨e.inputTokens, e.outputTokens, e.cacheCreationTokens,
          e.cacheReadTokens, e.totalTokens, e.totalCost, e.modelsUsed⟩⟩

/-- The date-range filter of `getUserAggregateStats`
(`convex/stats.ts` lines 359-368): records of one user filtered by
`s.date >= startDate && s.date <= endDate` — note: the local `date`
field, not the effective date. -/
def userAggregateStatsFilter (stats : List DailyStat) (uid startDate endDate : String) :
    List DailyStat :=
  (stats.filter fun s => s.userId = uid).filter
    fun s => startDate ≤ s.date ∧ s.date ≤ endDate

/-- The leaderboard period enum. -/
inductive Period where
  | daily
  | weekly
  | monthly
  | alltime
deriving DecidableEq

/-- Model of `getTomorrow` (lines 23-27) on calendar-day numbers: one day after
today. -/
def getTomorrow (today : Int) : Int :=
  today + 1

/-- Model of `getDaysAgo` (lines 30-35): `days` back from today plus one extra
buffer day. -/
def getDaysAgo (today : Int) (days : Int) : Int :=
  today - days - 1

/-- Day number of 1970-01-01 plus `daysFromCivil` below give
`"2000-01-01"` the day number 10957; used by the all-time branch. -/
def day2000 : Int := 10957

/-- The result record of `getPeriodDateRanges` (lines 234-240). -/
structure PeriodDateRanges where
  currentStart : Int
  currentEnd : Int
  previousStart : Int
  previousEnd : Int
  hasPrevious : Bool
deriving DecidableEq

/-- Model of `getPeriodDateRanges` (lines 234-276) on calendar-day numbers. -/
def getPeriodDateRanges (today : Int) : Period → PeriodDateRanges
  | Period.daily =>
    { currentStart := getDaysAgo today 1
      currentEnd := getTomorrow today
      previousStart := getDaysAgo today 3
      previousEnd := getDaysAgo today 1
      hasPrevious := true }
  | Period.weekly =>
    { currentStart := getDaysAgo today 7
      currentEnd := getTomorrow today
      previousStart := getDaysAgo today 14
      previousEnd := getDaysAgo today 7
      hasPrevious := true }
  | Period.monthly =>
    { currentStart := getDaysAgo today 30
      currentEnd := getTomorrow today
      previousStart := getDaysAgo today 60
      previousEnd := getDaysAgo today 30
      hasPrevious := true }
  | Period.alltime =>
    { currentStart := day2000
      currentEnd := getTomorrow today
      previousStart := day2000
      previousEnd := day2000
      hasPrevious := false }

/-- Nominal window length in days of each period with a previous window. -/
def periodDays : Period → Int
  | Period.daily => 1
  | Period.weekly => 7
  | Period.monthly => 30
  | Period.alltime => 0

/-- Day number (days since 1970-01-01) of a proleptic-Gregorian civil date;
what `Date.UTC(y, m-1, d)` computes, divided by 86400000. -/
def daysFromCivil (y m d : Int) : Int :=
  let y2 := y - (if m ≤ 2 then 1 else 0)
  let era := Int.fdiv y2 400
  let yoe := y2 - era * 400
  let mp := if m > 2 then m - 3 else m + 9
  let doy := Int.fdiv (153 * mp + 2) 5 + d - 1
  let doe := yoe * 365 + Int.fdiv yoe 4 - Int.fdiv yoe 100 + doy
  era * 146097 + doe - 719468

/-- Inverse of `daysFromCivil`: the civil date of a day number; what
`getUTCFullYear`/`getUTCMonth`/`getUTCDate` read back. -/
def civilFromDays (z : Int) : Int × Int × Int :=
  let z2 := z + 719468
  let era := Int.fdiv z2 146097
  let doe := z2 - era * 146097
  let yoe := Int.fdiv (doe - Int.fdiv doe 1460 + Int.fdiv doe 36524 - Int.fdiv doe 146096) 365
  let y := yoe + era * 400
  let doy := doe - (365 * yoe + Int.fdiv yoe 4 - Int.fdiv yoe 100)
  let mp := Int.fdiv (5 * doy + 2) 153
  let d := doy - Int.fdiv (153 * mp + 2) 5 + 1
  let m := mp + (if mp < 10 then 3 else -9)
  (y + (if m ≤ 2 then 1 else 0), m, d)

/-- ASCII digit of `n % 10`. -/
def digitChar (n : Int) : Char :=
  Char.ofNat (48 + (n % 10).toNat)

/-- Model of `toISOString().split("T")[0]` for the in-range years 0-9999:
zero-padded `YYYY-MM-DD`. -/
def formatDate (ymd : Int × Int × Int) : String :=
  String.mk
    [digitChar (Int.fdiv ymd.1 1000), digitChar (Int.fdiv ymd.1 100),
     digitChar (Int.fdiv ymd.1 10), digitChar ymd.1, '-',
     digitChar (Int.fdiv ymd.2.1 10), digitChar ymd.2.1, '-',
     digitChar (Int.fdiv ymd.2.2 10), digitChar ymd.2.2]

/-- Number of days of a month in the Gregorian calendar. -/
def daysInMonth (y m : Int) : Int :=
  if m = 2 then
    if (y % 4 = 0 ∧ y % 100 ≠ 0) ∨ y % 400 = 0 then 29 else 28
  else if m = 4 ∨ m = 6 ∨ m = 9 ∨ m = 11 then 30
  else 31

/-- Value of a list of ASCII digit characters, `none` if any character is
not a digit. -/
def digitsVal : List Char → Option Int
  | [] => some 0
  | c :: r =>
    if c.isDigit then
      (digitsVal r).map fun v => v + (c.toNat - 48 : Int) * (10 ^ r.length : Int)
    else none

/-- Parse a strict `YYYY-MM-DD` string as `new Date(s + "T00:00:00Z")`
does: exact layout, in-range month and day; `none` means the JavaScript
`Date` would be invalid (and `toISOString` would throw). -/
def parseDate (s : String) : Option (Int × Int × Int) :=
  let cs := s.data
  if cs.length = 10 ∧ cs.get? 4 = some '-' ∧ cs.get? 7 = some '-' then
    match digitsVal (cs.take 4), digitsVal ((cs.drop 5).take 2),
        digitsVal ((cs.drop 8).take 2) with
    | some y, some m, some d =>
      if 1 ≤ m ∧ m ≤ 12 ∧ 1 ≤ d ∧ d ≤ daysInMonth y m then some (y, m, d) else none
    | _, _, _ => none
  else none

/-- Model of `getISOWeekMonday` (leaderboard.ts lines 43-49): the Monday of the ISO
week containing the date.  On a string the JavaScript `Date` cannot parse
the source would throw; that branch is modelled as the identity and is
unreachable for the valid ISO dates the engine feeds in. -/
def getISOWeekMonday (s : String) : String :=
  match parseDate s with
  | none => s
  | some (y, m, d) =>
    let z := daysFromCivil y m d
    let day := (z + 4) % 7
    let diff := if day = 0 then -6 else 1 - day
    formatDate (civilFromDays (z + diff))

/-- Model of `getMonthStart` (lines 52-54): `dateStr.slice(0, 7) + "-01"`. -/
def getMonthStart (s : String) : String :=
  s.take 7 ++ "-01"

/-- The chart bucketing mode. -/
inductive BucketBy where
  | day
  | week
  | month
deriving DecidableEq

/-- Model of `getBucketKey` (lines 57-66). -/
def getBucketKey (s : String) : BucketBy → String
  | BucketBy.day => s
  | BucketBy.week => getISOWeekMonday s
  | BucketBy.month => getMonthStart s

/-- The per-bucket aggregate of `getDailyUsageChart` (lines 631-638). -/
structure ChartAgg where
  totalTokens : Int
  totalCost : Rat
  uniqueUsers : List String
deriving DecidableEq

/-- The `else` branch of the per-date grouping loop (lines 647-653). -/
def initChart (s : DailyStat) : ChartAgg where
  totalTokens := s.totalTokens
  totalCost := s.totalCost
  uniqueUsers := [s.userId]

/-- The `if (existing)` branch of the per-date grouping loop (lines 643-647). -/
def accChart (a : ChartAgg) (s : DailyStat) : ChartAgg where
  totalTokens := a.totalTokens + s.totalTokens
  totalCost := a.totalCost + s.totalCost
  uniqueUsers := setAdd a.uniqueUsers s.userId

/-- Model of `dailyAggregates` of `getDailyUsageChart` (lines 640-654): stats
grouped by effective date. -/
def dailyAggregates (filteredStats : List DailyStat) : List (String × ChartAgg) :=
  groupFold getEffectiveDate initChart accChart filteredStats

/-- The `else` branch of the bucketing loop (lines 669-675):
`new Set(data.uniqueUsers)` copies the user set. -/
def initBucket (p : String × ChartAgg) : ChartAgg where
  totalTokens := p.2.totalTokens
  totalCost := p.2.totalCost
  uniqueUsers := p.2.uniqueUsers.foldl setAdd []

/-- The `if (existing)` branch of the bucketing loop (lines 663-668). -/
def accBucket (a : ChartAgg) (p : String × ChartAgg) : ChartAgg where
  totalTokens := a.totalTokens + p.2.totalTokens
  totalCost := a.totalCost + p.2.totalCost
  uniqueUsers := p.2.uniqueUsers.foldl setAdd a.uniqueUsers

/-- The bucketing step of `getDailyUsageChart` (lines 656-676): re-group
the per-day aggregates by bucket key, summing tokens and costs and
unioning user sets. -/
def bucketize (mode : BucketBy) (daily : List (String × ChartAgg)) :
    List (String × ChartAgg) :=
  groupFold (fun p => getBucketKey p.1 mode) initBucket accBucket daily

/-- Lines 657-679: bucketing is applied only when `bucketBy` is supplied
and is not `"day"`. -/
def chartFinalAggregates (bucketBy : Option BucketBy)
    (daily : List (String × ChartAgg)) : List (String × ChartAgg) :=
  match bucketBy with
  | some mode => if mode = BucketBy.day then daily else bucketize mode daily
  | none => daily

/-- Model of `Math.round(cost * 100) / 100` (exact-number model of line 831):
JavaScript `Math.round(x)` is `⌊x + 1/2⌋`. -/
def roundCost (q : Rat) : Rat :=
  (⌊q * 100 + 1 / 2⌋ : Rat) / 100

/-- The character class kept by `name.replace(/[^a-zA-Z0-9_-]/g, "")`. -/
def allowedChar (c : Char) : Bool :=
  c.isAlpha || c.isDigit || c = '_' || c = '-'

/-- Line 786: sanitize a display name — drop disallowed characters, keep at
most 39 characters, and fall back to `"unknown"` when empty. -/
def sanitizeName (name : String) : String :=
  let kept := (name.data.filter allowedChar).take 39
  if kept.isEmpty then "unknown" else String.mk kept

/-- Line 784: `user.displayName ?? `User ${user.slackUserId.slice(-4)}``. -/
def displayNameOf (u : User) : String :=
  match u.displayName with
  | some n => n
  | none => "User " ++ u.slackUserId.takeRight 4

/-- Lines 827-833: build one chart row — for each top user in order, set
`entry[name] = rounded cost`, a later user overwriting an equal key. -/
def buildRow (userNames : List (String × String)) (dayMap : List (String × Rat))
    (ids : List String) : List (String × Rat) :=
  ids.foldl
    (fun entry uid =>
      mapSet entry ((mapGet userNames uid).getD "unknown")
        (roundCost ((mapGet dayMap uid).getD 0)))
    []

/-- Model of `getUserDailyUsageChart` (lines 699-844); the clock-resolved window is
injected as `startDate`/`endDate`.  Returns the top-user list
`(userId, displayName)` and the chart rows `(bucketKey, series)`. -/
def getUserDailyUsageChart (stats : List DailyStat) (users : List User)
    (startDate endDate : String) (topN : Option Nat) (bucketBy : Option BucketBy) :
    List (String × String) × List (String × List (String × Rat)) :=
  let maxUsers := topN.getD 10
  let filteredStats := windowFilter stats startDate endDate
  let userTotals := filteredStats.foldl
    (fun m s => mapSet m s.userId ((mapGet m s.userId).getD 0 + s.totalCost))
    ([] : List (String × Rat))
  let topUserIds :=
    ((List.insertionSort (fun a b : String × Rat => b.2 ≤ a.2) userTotals).take
      maxUsers).map (fun p => p.1)
  let userNames := topUserIds.foldl
    (fun m uid =>
      match userLookup users uid with
      | some u => mapSet m uid (sanitizeName (displayNameOf u))
      | none => m)
    ([] : List (String × String))
  let dateUserCosts := filteredStats.foldl
    (fun m s =>
      if s.userId ∈ topUserIds then
        let d := getEffectiveDate s
        let dayMap := (mapGet m d).getD []
        mapSet m d (mapSet dayMap s.userId ((mapGet dayMap s.userId).getD 0 + s.totalCost))
      else m)
    ([] : List (String × List (String × Rat)))
  let finalDateUserCosts :=
    match bucketBy with
    | some mode =>
      if mode = BucketBy.day then dateUserCosts
      else
        dateUserCosts.foldl
          (fun acc p =>
            let k := getBucketKey p.1 mode
            let bucketMap := (mapGet acc k).getD []
            mapSet acc k
              (p.2.foldl (fun bm q => mapSet bm q.1 ((mapGet bm q.1).getD 0 + q.2)) bucketMap))
          []
    | none => dateUserCosts
  let dates := List.insertionSort (fun a b : String => a ≤ b)
    (finalDateUserCosts.map (fun p => p.1))
  let chartData := dates.map fun date =>
    (date, buildRow userNames ((mapGet finalDateUserCosts date).getD []) topUserIds)
  let usersOut := topUserIds.map fun uid => (uid, (mapGet userNames uid).getD "unknown")
  (usersOut, chartData)

/-- One step of a group-by loop restricted to a single key: either start a
fresh aggregate or accumulate into the current one. -/
def chainAcc {α β : Type} (init : α → β) (acc : β → α → β)
    (cur : Option β) (a : α) : Option β :=
  some (match cur with
        | some b => acc b a
        | none => init a)

/-- Value equality of two aggregates: equal sums for all six counters, the
same set of model names, and the same maximum `updatedAt`. -/
def Aggregate.similar (a b : Aggregate) : Prop :=
  a.inputTokens = b.inputTokens ∧ a.outputTokens = b.outputTokens ∧
  a.cacheCreationTokens = b.cacheCreationTokens ∧
  a.cacheReadTokens = b.cacheReadTokens ∧
  a.totalTokens = b.totalTokens ∧ a.totalCost = b.totalCost ∧
  (∀ m ∈ a.modelsUsed, m ∈ b.modelsUsed) ∧
  (∀ m ∈ b.modelsUsed, m ∈ a.modelsUsed) ∧
  a.lastSyncedAt = b.lastSyncedAt

instance : ∀ a b : Aggregate, Decidable (a.similar b) := fun a b => by
  unfold Aggregate.similar
  infer_instance

/-- Value equality on optional aggregates: both absent, or both present and
similar. -/
def optAggSimilar : Option Aggregate → Option Aggregate → Prop
  | some a, some b => a.similar b
  | none, none => True
  | some _, none => False
  | none, some _ => False

instance : ∀ x y : Option Aggregate, Decidable (optAggSimilar x y) := fun x y =>
  match x, y with
  | some a, some b => inferInstanceAs (Decidable (a.similar b))
  | none, none => Decidable.isTrue trivial
  | some _, none => Decidable.isFalse fun h => h
  | none, some _ => Decidable.isFalse fun h => h

/-- Sample stat records and users used by the concrete witnesses below. -/
def exStat1 : DailyStat :=
  ⟨"u1", "2025-01-02", none, 1, 2, 3, 4, 10, 5, ["opus"], 100⟩

def exStat2 : DailyStat :=
  ⟨"u2", "2025-01-02", none, 1, 1, 1, 1, 4, 10, ["sonnet"], 50⟩

def exStat3 : DailyStat :=
  ⟨"u1", "2025-01-03", none, 1, 0, 0, 0, 1, 3, ["haiku"], 200⟩

def exUser1 : User := ⟨"u1", "SU1", "T1", some "Alice"⟩

def exUser2 : User := ⟨"u2", "SU2", "T1", some "Bob"⟩

/-- A stat whose local `date` and `utcDate` fall on different calendar
days, as happens for a user syncing late in a timezone behind UTC. -/
def skewStat : DailyStat :=
  ⟨"u1", "2025-01-05", some "2025-01-06", 1, 1, 1, 1, 4, 2, ["opus"], 10⟩

/-- A bare leaderboard entry for the rank-change witnesses. -/
def exEntry (uid : String) (cost : Rat) (rank : Int) : LeaderboardEntry :=
  ⟨uid, none, uid, 0, 0, 0, 0, 0, cost, [], rank, RankChange.null, 0⟩

/-- A sample daily aggregate series: two days of the ISO week starting
Monday 2025-01-06, and one day of the following week. -/
def exDaily : List (String × ChartAgg) :=
  [("2025-01-07", ⟨5, 2, ["u1"]⟩), ("2025-01-08", ⟨7, 3, ["u2"]⟩),
   ("2025-01-20", ⟨1, 1, ["u3"]⟩)]

/-- Lookup after `Map.set`: the written key reads back the new value, any
other key is unaffected. -/
theorem mapGet_mapSet {κ ν : Type} [DecidableEq κ]
    (m : List (κ × ν)) (k : κ) (val : ν) (k2 : κ) :
    mapGet (mapSet m k val) k2 = if k = k2 then some val else mapGet m k2 := by
  induction m with
  | nil =>
    simp only [mapSet, mapGet]
  | cons p r ih =>
    obtain ⟨a, b⟩ := p
    by_cases hak : a = k
    · subst hak
      simp only [mapSet, if_pos rfl, mapGet]
      by_cases h2 : a = k2 <;> simp [h2]
    · simp only [mapSet, if_neg hak, mapGet]
      by_cases h2 : a = k2
      · subst h2
        have hka : ¬ k = a := fun h => hak h.symm
        simp [hka]
      · simp [h2, ih]

/-- Lookup after one group-by step. -/
theorem mapGet_groupStep {α κ β : Type} [DecidableEq κ] (key : α → κ)
    (init : α → β) (acc : β → α → β) (m : List (κ × β)) (a : α) (k : κ) :
    mapGet (groupStep key init acc m a) k =
      if key a = k then chainAcc init acc (mapGet m k) a else mapGet m k := by
  unfold groupStep
  rw [mapGet_mapSet]
  by_cases h : key a = k
  · subst h
    simp [chainAcc]
  · simp [h]

/-- Lookup in a group-by fold, generalized over the starting map: the
records of key `k` are folded, in order, on top of the starting value. -/
theorem mapGet_foldl_groupStep {α κ β : Type} [DecidableEq κ] (key : α → κ)
    (init : α → β) (acc : β → α → β) :
    ∀ (l : List α) (m : List (κ × β)) (k : κ),
      mapGet (l.foldl (groupStep key init acc) m) k =
        (l.filter fun a => key a = k).foldl (chainAcc init acc) (mapGet m k) := by
  intro l
  induction l with
  | nil =>
    intro m k
    rfl
  | cons a l ih =>
    intro m k
    rw [List.foldl_cons, ih, mapGet_groupStep, List.filter_cons]
    by_cases h : key a = k
    · simp [h]
    · simp [h]

/-- Folding `chainAcc` from a present value accumulates with `acc`. -/
theorem foldl_chainAcc_some {α β : Type} (init : α → β) (acc : β → α → β) :
    ∀ (l : List α) (b : β),
      l.foldl (chainAcc init acc) (some b) = some (l.foldl acc b) := by
  intro l
  induction l with
  | nil => intro b; rfl
  | cons a l ih => intro b; rw [List.foldl_cons, List.foldl_cons, chainAcc, ih]

/-- Characterization of a JavaScript group-by loop: the bucket of key `k`
holds exactly the fold of the input records whose key is `k`, in input
order, seeded from the first such record. -/
theorem mapGet_groupFold {α κ β : Type} [DecidableEq κ] (key : α → κ)
    (init : α → β) (acc : β → α → β) (l : List α) (k : κ) :
    mapGet (groupFold key init acc l) k =
      match l.filter fun a => key a = k with
      | [] => none
      | a :: r => some (r.foldl acc (init a)) := by
  unfold groupFold
  rw [mapGet_foldl_groupStep]
  cases h : l.filter fun a => key a = k with
  | nil => rfl
  | cons a r =>
    rw [List.foldl_cons]
    show (List.foldl (chainAcc init acc) (chainAcc init acc none a) r) = _
    rw [chainAcc, foldl_chainAcc_some]

/-- Membership in `Set.add`. -/
theorem mem_setAdd {α : Type} [DecidableEq α] (s : List α) (a x : α) :
    x ∈ setAdd s a ↔ x ∈ s ∨ x = a := by
  unfold setAdd
  by_cases h : a ∈ s
  · simp only [if_pos h]
    constructor
    · exact Or.inl
    · rintro (hx | rfl)
      · exact hx
      · exact h
  · simp [if_neg h]

/-- Membership in a fold of `Set.add`s. -/
theorem mem_foldl_setAdd {α : Type} [DecidableEq α] :
    ∀ (l : List α) (s : List α) (x : α),
      x ∈ l.foldl setAdd s ↔ x ∈ s ∨ x ∈ l := by
  intro l
  induction l with
  | nil => intro s x; simp
  | cons a l ih =>
    intro s x
    rw [List.foldl_cons, ih, mem_setAdd, List.mem_cons]
    tauto

/-- A fold whose step adds `g a` to a projection `f` sums that projection. -/
theorem foldl_additive {β γ M : Type} [AddMonoid M] (step : β → γ → β)
    (f : β → M) (g : γ → M) (hstep : ∀ b a, f (step b a) = f b + g a) :
    ∀ (l : List γ) (b : β), f (l.foldl step b) = f b + (l.map g).sum := by
  intro l
  induction l with
  | nil => intro b; simp
  | cons a l ih =>
    intro b
    rw [List.foldl_cons, ih, hstep, List.map_cons, List.sum_cons, add_assoc]

/-- The `lastSyncedAt` of an aggregation fold is the running maximum of the
`updatedAt` fields. -/
theorem foldl_accumStat_last :
    ∀ (l : List DailyStat) (b : Aggregate),
      (l.foldl accumStat b).lastSyncedAt =
        l.foldl (fun c s => max c s.updatedAt) b.lastSyncedAt := by
  intro l
  induction l with
  | nil => intro b; rfl
  | cons a l ih =>
    intro b
    rw [List.foldl_cons, List.foldl_cons, ih]
    congr 1
    show (if a.updatedAt > b.lastSyncedAt then a.updatedAt else b.lastSyncedAt) = _
    rcases lt_or_le b.lastSyncedAt a.updatedAt with h | h
    · simp [h, max_eq_right h.le]
    · simp [not_lt.mpr h, max_eq_left h]

/-- The model set of an aggregation fold collects exactly the models of the
starting aggregate and of the folded stats. -/
theorem foldl_accumStat_models :
    ∀ (l : List DailyStat) (b : Aggregate) (m : String),
      m ∈ (l.foldl accumStat b).modelsUsed ↔
        m ∈ b.modelsUsed ∨ ∃ s ∈ l, m ∈ s.modelsUsed := by
  intro l
  induction l with
  | nil => intro b m; simp
  | cons a l ih =>
    intro b m
    rw [List.foldl_cons, ih]
    show (m ∈ a.modelsUsed.foldl setAdd b.modelsUsed ∨ _) ↔ _
    rw [mem_foldl_setAdd]
    simp only [List.mem_cons]
    constructor
    · rintro ((hb | ha) | ⟨s, hs, hm⟩)
      · exact Or.inl hb
      · exact Or.inr ⟨a, Or.inl rfl, ha⟩
      · exact Or.inr ⟨s, Or.inr hs, hm⟩
    · rintro (hb | ⟨s, hs | hs, hm⟩)
      · exact Or.inl (Or.inl hb)
      · subst hs; exact Or.inl (Or.inr hm)
      · exact Or.inr ⟨s, hs, hm⟩

/-- Folding the running maximum of `updatedAt` over a permuted list gives
the same value, for any starting value. -/
theorem foldl_wmax_perm {l l2 : List DailyStat} (h : l.Perm l2) :
    ∀ c : WithBot Int,
      l.foldl (fun c s => max c (s.updatedAt : WithBot Int)) c =
        l2.foldl (fun c s => max c (s.updatedAt : WithBot Int)) c := by
  induction h with
  | nil => intro c; rfl
  | cons x _ ih =>
    intro c
    rw [List.foldl_cons, List.foldl_cons]
    exact ih _
  | swap x y l =>
    intro c
    rw [List.foldl_cons, List.foldl_cons, List.foldl_cons, List.foldl_cons]
    rw [sup_right_comm]
  | trans _ _ ih1 ih2 =>
    intro c
    rw [ih1, ih2]

/-- The integer running maximum agrees with its `WithBot` version. -/
theorem coe_foldl_max :
    ∀ (l : List DailyStat) (x : Int),
      ((l.foldl (fun c s => max c s.updatedAt) x : Int) : WithBot Int) =
        l.foldl (fun c s => max c (s.updatedAt : WithBot Int)) (x : WithBot Int) := by
  intro l
  induction l with
  | nil => intro x; rfl
  | cons a l ih =>
    intro x
    rw [List.foldl_cons, List.foldl_cons, ih, WithBot.coe_max]

/-- Equality of one additive field of two aggregation folds over permuted
stat lists. -/
theorem accumStat_sum_field_eq {M : Type} [AddCommMonoid M]
    (f : Aggregate → M) (g : DailyStat → M)
    (hstep : ∀ b s, f (accumStat b s) = f b + g s)
    (hinit : ∀ s, f (initAgg s) = g s)
    {a b : DailyStat} {r1 r2 : List DailyStat}
    (hp : (a :: r1).Perm (b :: r2)) :
    f (r1.foldl accumStat (initAgg a)) = f (r2.foldl accumStat (initAgg b)) := by
  rw [foldl_additive accumStat f g hstep, foldl_additive accumStat f g hstep,
    hinit, hinit, ← List.sum_cons, ← List.sum_cons, ← List.map_cons, ← List.map_cons]
  exact (hp.map g).sum_eq

/-- The model set of an aggregation fold seeded from its first stat. -/
theorem accumStat_models_char (a : DailyStat) (r : List DailyStat) (m : String) :
    m ∈ (r.foldl accumStat (initAgg a)).modelsUsed ↔
      ∃ s ∈ a :: r, m ∈ s.modelsUsed := by
  rw [foldl_accumStat_models]
  show m ∈ a.modelsUsed.foldl setAdd [] ∨ _ ↔ _
  rw [mem_foldl_setAdd]
  simp only [List.not_mem_nil, false_or, List.mem_cons]
  constructor
  · rintro (ha | ⟨s, hs, hm⟩)
    · exact ⟨a, Or.inl rfl, ha⟩
    · exact ⟨s, Or.inr hs, hm⟩
  · rintro ⟨s, hs | hs, hm⟩
    · subst hs; exact Or.inl hm
    · exact Or.inr ⟨s, hs, hm⟩

/-- The `lastSyncedAt` of an aggregation fold seeded from its first stat,
as a `WithBot` maximum over the whole list. -/
theorem accumStat_last_char (a : DailyStat) (r : List DailyStat) :
    ((r.foldl accumStat (initAgg a)).lastSyncedAt : WithBot Int) =
      (a :: r).foldl (fun c s => max c (s.updatedAt : WithBot Int)) ⊥ := by
  rw [foldl_accumStat_last, coe_foldl_max, List.foldl_cons]
  show r.foldl _ ((a.updatedAt : WithBot Int)) = r.foldl _ (max ⊥ (a.updatedAt : WithBot Int))
  rw [max_eq_right bot_le]

/-- C5: For every record set and every permutation of it, aggregation over
the same window produces the identical per-user aggregate: the same sums
for all six counters, the same set of model names, and the same maximum
`updatedAt`, regardless of the order in which records are folded. -/
theorem aggregate_perm_invariant (stats stats2 : List DailyStat)
    (h : stats.Perm stats2) (uid : String) :
    optAggSimilar (mapGet (buildAggregates stats) uid)
      (mapGet (buildAggregates stats2) uid) := by
  have hfil : (stats.filter fun s => decide (s.userId = uid)).Perm
      (stats2.filter fun s => decide (s.userId = uid)) := h.filter _
  unfold buildAggregates
  rw [mapGet_groupFold, mapGet_groupFold]
  cases h1 : stats.filter fun s => decide (s.userId = uid) with
  | nil =>
    cases h2 : stats2.filter fun s => decide (s.userId = uid) with
    | nil => trivial
    | cons b r2 =>
      rw [h1, h2] at hfil
      exact absurd hfil.symm (by simp)
  | cons a r1 =>
    cases h2 : stats2.filter fun s => decide (s.userId = uid) with
    | nil =>
      rw [h1, h2] at hfil
      exact absurd hfil (by simp)
    | cons b r2 =>
      rw [h1, h2] at hfil
      show Aggregate.similar _ _
      refine ⟨?_, ?_, ?_, ?_, ?_, ?_, ?_, ?_, ?_⟩
      · exact accumStat_sum_field_eq (fun x => x.inputTokens)
          (fun s => s.inputTokens) (fun _ _ => rfl) (fun _ => rfl) hfil
      · exact accumStat_sum_field_eq (fun x => x.outputTokens)
          (fun s => s.outputTokens) (fun _ _ => rfl) (fun _ => rfl) hfil
      · exact accumStat_sum_field_eq (fun x => x.cacheCreationTokens)
          (fun s => s.cacheCreationTokens) (fun _ _ => rfl) (fun _ => rfl) hfil
      · exact accumStat_sum_field_eq (fun x => x.cacheReadTokens)
          (fun s => s.cacheReadTokens) (fun _ _ => rfl) (fun _ => rfl) hfil
      · exact accumStat_sum_field_eq (fun x => x.totalTokens)
          (fun s => s.totalTokens) (fun _ _ => rfl) (fun _ => rfl) hfil
      · exact accumStat_sum_field_eq (fun x => x.totalCost)
          (fun s => s.totalCost) (fun _ _ => rfl) (fun _ => rfl) hfil
      · intro m hm
        obtain ⟨s, hs, hms⟩ := (accumStat_models_char a r1 m).mp hm
        exact (accumStat_models_char b r2 m).mpr ⟨s, hfil.mem_iff.mp hs, hms⟩
      · intro m hm
        obtain ⟨s, hs, hms⟩ := (accumStat_models_char b r2 m).mp hm
        exact (accumStat_models_char a r1 m).mpr ⟨s, hfil.mem_iff.mpr hs, hms⟩
      · have e1 := accumStat_last_char a r1
        have e2 := accumStat_last_char b r2
        rw [foldl_wmax_perm hfil ⊥] at e1
        rw [← e2] at e1
        exact WithBot.coe_inj.mp e1

/-- C5 witness: a concrete permutation pair with value-equal aggregates. -/
theorem aggregate_perm_invariant_witness :
    ([exStat1, exStat2, exStat3].Perm [exStat3, exStat1, exStat2]) ∧
    optAggSimilar (mapGet (buildAggregates [exStat1, exStat2, exStat3]) "u1")
      (mapGet (buildAggregates [exStat3, exStat1, exStat2]) "u1") :=
  ⟨by decide, aggregate_perm_invariant _ _ (by decide) "u1"⟩

/-- Rank assignment keeps the list length. -/
theorem assignRanks_length :
    ∀ (l : List LeaderboardEntry) (i : Nat), (assignRanks l i).length = l.length := by
  intro l
  induction l with
  | nil => intro i; rfl
  | cons e r ih => intro i; simp [assignRanks, ih]

/-- The ranks assigned by `forEach((entry, index) => entry.rank = index + 1)`
are consecutive from `i + 1`. -/
theorem map_rank_assignRanks :
    ∀ (l : List LeaderboardEntry) (i : Nat),
      (assignRanks l i).map (fun e => e.rank) =
        (List.range' (i + 1) l.length).map (fun n : Nat => (n : Int)) := by
  intro l
  induction l with
  | nil => intro i; rfl
  | cons e r ih =>
    intro i
    show ((i : Int) + 1) :: (assignRanks r (i + 1)).map (fun e => e.rank) = _
    rw [List.length_cons, List.range'_succ, List.map_cons, ih]
    simp

/-- Rank assignment does not touch the costs. -/
theorem map_cost_assignRanks :
    ∀ (l : List LeaderboardEntry) (i : Nat),
      (assignRanks l i).map (fun e => e.totalCost) = l.map (fun e => e.totalCost) := by
  intro l
  induction l with
  | nil => intro i; rfl
  | cons e r ih => intro i; simp [assignRanks, ih]

/-- The ranking step keeps the number of entries. -/
theorem rankEntries_length (l : List LeaderboardEntry) :
    (rankEntries l).length = l.length := by
  unfold rankEntries sortByCostDesc
  rw [assignRanks_length, (List.perm_insertionSort costGE l).length_eq]

/-- The ranks of the ranking step are exactly `1, 2, …, N`. -/
theorem map_rank_rankEntries (l : List LeaderboardEntry) :
    (rankEntries l).map (fun e => e.rank) =
      (List.range' 1 l.length).map (fun n : Nat => (n : Int)) := by
  unfold rankEntries sortByCostDesc
  rw [map_rank_assignRanks, (List.perm_insertionSort costGE l).length_eq]

/-- The ranking step orders entries by descending total cost. -/
theorem pairwise_cost_rankEntries (l : List LeaderboardEntry) :
    (rankEntries l).Pairwise (fun a b => b.totalCost ≤ a.totalCost) := by
  have h1 : (sortByCostDesc l).Pairwise costGE := List.sorted_insertionSort costGE l
  have h2 : ((sortByCostDesc l).map (fun e => e.totalCost)).Pairwise
      (fun x y : Rat => y ≤ x) := List.pairwise_map.mpr h1
  rw [← map_cost_assignRanks (sortByCostDesc l) 0] at h2
  exact List.pairwise_map.mp h2

/-- C1: For every set of user aggregates of size N, the ranking step
returns entries sorted descending by `totalCost` with ranks exactly the
set `{1..N}`: the entry at position `i` has rank `i + 1`, there are no
gaps and no duplicate ranks, and entries with equal `totalCost` still
receive distinct sequential ranks in sort order. -/
theorem ranking_dense_and_sorted (entries : List LeaderboardEntry) :
    (rankEntries entries).length = entries.length ∧
    (rankEntries entries).map (fun e => e.rank) =
      (List.range' 1 entries.length).map (fun n : Nat => (n : Int)) ∧
    (rankEntries entries).Pairwise (fun a b => b.totalCost ≤ a.totalCost) :=
  ⟨rankEntries_length entries, map_rank_rankEntries entries,
    pairwise_cost_rankEntries entries⟩

/-- Lookup in the `previousRankMap` fold: with duplicate-free previous
user ids, it reads back the rank of that user's unique previous entry. -/
theorem mapGet_prevRankMap (uid : String) :
    ∀ (prev : List LeaderboardEntry) (m : List (String × Int)),
      (prev.map (fun e => e.userId)).Nodup →
      mapGet (prev.foldl (fun m e => mapSet m e.userId e.rank) m) uid =
        match prev.find? (fun p => p.userId = uid) with
        | some p => some p.rank
        | none => mapGet m uid := by
  intro prev
  induction prev with
  | nil => intro m _; rfl
  | cons e rest ih =>
    intro m hnd
    rw [List.map_cons, List.nodup_cons] at hnd
    rw [List.foldl_cons, ih _ hnd.2]
    by_cases h : e.userId = uid
    · have hne : rest.find? (fun p => decide (p.userId = uid)) = none := by
        rw [List.find?_eq_none]
        intro p hp
        simp only [decide_eq_true_eq]
        intro hpu
        exact hnd.1 (h ▸ hpu ▸ List.mem_map_of_mem (fun x => x.userId) hp)
      have hfc : (e :: rest).find? (fun p => decide (p.userId = uid)) = some e :=
        List.find?_cons_of_pos _ (by simpa using h)
      rw [hne, hfc, mapGet_mapSet, if_pos h]
    · have hfc : (e :: rest).find? (fun p => decide (p.userId = uid)) =
          rest.find? (fun p => decide (p.userId = uid)) :=
        List.find?_cons_of_neg _ (by simpa using h)
      rw [hfc]
      cases rest.find? (fun p => decide (p.userId = uid)) with
      | none => rw [mapGet_mapSet, if_neg h]
      | some p => rfl

/-- C2: For every pair of leaderboards (current, previous) with
duplicate-free previous user ids, the rank-change computation marks a
current entry "new" when its user appears in no previous entry, and
otherwise stores that user's previous rank minus the entry's current rank
(positive meaning the user moved toward rank 1). -/
theorem computeRankChanges_spec (current previous : List LeaderboardEntry)
    (hnd : (previous.map (fun e => e.userId)).Nodup) :
    computeRankChanges current previous = current.map (fun e =>
      match previous.find? (fun p => p.userId = e.userId) with
      | none => { e with rankChange := RankChange.new }
      | some p => { e with rankChange := RankChange.num (p.rank - e.rank) }) := by
  unfold computeRankChanges
  apply List.map_congr_left
  intro e _
  rw [mapGet_prevRankMap e.userId previous [] hnd]
  cases previous.find? (fun p => decide (p.userId = e.userId)) with
  | none => rfl
  | some p => rfl

/-- C2 witness: carol exists only in the current window and is marked
"new"; bob's delta is his previous rank minus his current rank. -/
theorem computeRankChanges_spec_witness :
    (([exEntry "bob" 7 1] : List LeaderboardEntry).map (fun e => e.userId)).Nodup ∧
    computeRankChanges [exEntry "carol" 9 1, exEntry "bob" 5 2] [exEntry "bob" 7 1] =
      ([exEntry "carol" 9 1, exEntry "bob" 5 2].map (fun e =>
        match ([exEntry "bob" 7 1] : List LeaderboardEntry).find?
            (fun p => p.userId = e.userId) with
        | none => { e with rankChange := RankChange.new }
        | some p => { e with rankChange := RankChange.num (p.rank - e.rank) })) :=
  ⟨by decide, computeRankChanges_spec _ _ (by decide)⟩

/-- C3: a record whose `utcDate` (2025-01-06) falls inside the window but
whose local `date` (2025-01-05) falls outside it is included by the
leaderboard window filter (which compares the effective date) but dropped
by the `getUserAggregateStats` range filter of stats.ts, which compares the
local `date` field even though `utcDate` is present. -/
theorem userAggregateStats_filter_uses_local_date :
    getEffectiveDate skewStat = "2025-01-06" ∧
    windowFilter [skewStat] "2025-01-06" "2025-01-06" = [skewStat] ∧
    userAggregateStatsFilter [skewStat] "u1" "2025-01-06" "2025-01-06" = [] := by
  with_unfolding_all decide

/-- C4 counterexample: for the weekly period the resolver's previous
window neither ends the day before the current window's start (it ends on
the current start itself) nor spans as many days as the current window
(8 versus 10, at any concrete `today`, here day 20100). -/
theorem previous_window_counterexample :
    ((getPeriodDateRanges 20100 Period.weekly).previousEnd ≠
      (getPeriodDateRanges 20100 Period.weekly).currentStart - 1) ∧
    ((getPeriodDateRanges 20100 Period.weekly).currentEnd -
        (getPeriodDateRanges 20100 Period.weekly).currentStart ≠
      (getPeriodDateRanges 20100 Period.weekly).previousEnd -
        (getPeriodDateRanges 20100 Period.weekly).previousStart) := by
  decide

/-- C4 amended: for each period with a previous window (nominal length d =
1, 7, 30 days), the previous window ends exactly on the current window's
start (a one-day overlap, not the day before it), and its concrete span is
strictly shorter than the current window's span of d+2 days difference
(d+3 days inclusive): the windows are nominally adjacent and of equal
length, but the concrete buffered ranges are neither. -/
theorem previous_window_overlaps (today : Int) (p : Period)
    (hp : p ≠ Period.alltime) :
    (getPeriodDateRanges today p).hasPrevious = true ∧
    (getPeriodDateRanges today p).previousEnd =
      (getPeriodDateRanges today p).currentStart ∧
    (getPeriodDateRanges today p).currentEnd -
      (getPeriodDateRanges today p).currentStart = periodDays p + 2 ∧
    (getPeriodDateRanges today p).previousEnd -
      (getPeriodDateRanges today p).previousStart <
      (getPeriodDateRanges today p).currentEnd -
      (getPeriodDateRanges today p).currentStart := by
  cases p with
  | daily =>
    refine ⟨rfl, rfl, ?_, ?_⟩
    · show getTomorrow today - getDaysAgo today 1 = 1 + 2
      unfold getTomorrow getDaysAgo
      omega
    · show getDaysAgo today 1 - getDaysAgo today 3 < getTomorrow today - getDaysAgo today 1
      unfold getTomorrow getDaysAgo
      omega
  | weekly =>
    refine ⟨rfl, rfl, ?_, ?_⟩
    · show getTomorrow today - getDaysAgo today 7 = 7 + 2
      unfold getTomorrow getDaysAgo
      omega
    · show getDaysAgo today 7 - getDaysAgo today 14 < getTomorrow today - getDaysAgo today 7
      unfold getTomorrow getDaysAgo
      omega
  | monthly =>
    refine ⟨rfl, rfl, ?_, ?_⟩
    · show getTomorrow today - getDaysAgo today 30 = 30 + 2
      unfold getTomorrow getDaysAgo
      omega
    · show getDaysAgo today 30 - getDaysAgo today 60 < getTomorrow today - getDaysAgo today 30
      unfold getTomorrow getDaysAgo
      omega
  | alltime => exact absurd rfl hp

/-- C4 witness: the amended statement at a concrete clock and period. -/
theorem previous_window_overlaps_witness :
    (Period.daily ≠ Period.alltime) ∧
    ((getPeriodDateRanges 0 Period.daily).hasPrevious = true ∧
    (getPeriodDateRanges 0 Period.daily).previousEnd =
      (getPeriodDateRanges 0 Period.daily).currentStart ∧
    (getPeriodDateRanges 0 Period.daily).currentEnd -
      (getPeriodDateRanges 0 Period.daily).currentStart = periodDays Period.daily + 2 ∧
    (getPeriodDateRanges 0 Period.daily).previousEnd -
      (getPeriodDateRanges 0 Period.daily).previousStart <
      (getPeriodDateRanges 0 Period.daily).currentEnd -
      (getPeriodDateRanges 0 Period.daily).currentStart) :=
  ⟨by decide, previous_window_overlaps 0 Period.daily (by decide)⟩

/-- With no limit supplied, `applyLimit` returns the whole list. -/
theorem applyLimit_none (l : List LeaderboardEntry) : applyLimit none l = l :=
  rfl

/-- With a nonzero limit, `applyLimit` takes the first `n` entries. -/
theorem applyLimit_some (n : Nat) (l : List LeaderboardEntry) (h : n ≠ 0) :
    applyLimit (some n) l = l.take n := by
  show (if n = 0 then l else l.take n) = l.take n
  rw [if_neg h]

/-- Rank-change computation does not touch the `rank` fields. -/
theorem map_rank_computeRankChanges (current previous : List LeaderboardEntry) :
    (computeRankChanges current previous).map (fun e => e.rank) =
      current.map (fun e => e.rank) := by
  unfold computeRankChanges
  rw [List.map_map]
  apply List.map_congr_left
  intro e _
  show (match mapGet _ e.userId with
        | none => { e with rankChange := RankChange.new }
        | some prevRank => { e with rankChange := RankChange.num (prevRank - e.rank) }).rank
      = e.rank
  cases mapGet (List.foldl (fun m e => mapSet m e.userId e.rank) [] previous) e.userId with
  | none => rfl
  | some prevRank => rfl

/-- Rank-change computation keeps the number of entries. -/
theorem computeRankChanges_length (current previous : List LeaderboardEntry) :
    (computeRankChanges current previous).length = current.length := by
  unfold computeRankChanges
  rw [List.length_map]

/-- C6: When a nonzero limit L is supplied to a leaderboard query, the
returned list is exactly the first L entries of the full ranked
leaderboard, and its entries keep the global ranks `1, …, L` they had in
the full ranking; ranks are never recomputed within the truncated
subset. -/
theorem limit_after_ranking (stats : List DailyStat) (users : List User)
    (daysAgo7 tomorrow daysAgo14 : String) (teamId : Option String)
    (L : Nat) (hL : L ≠ 0) :
    getWeeklyLeaderboard stats users daysAgo7 tomorrow daysAgo14 teamId (some L) =
      (getWeeklyLeaderboard stats users daysAgo7 tomorrow daysAgo14 teamId none).take L ∧
    (getWeeklyLeaderboard stats users daysAgo7 tomorrow daysAgo14 teamId (some L)).map
        (fun e => e.rank) =
      ((List.range' 1
        (getWeeklyLeaderboard stats users daysAgo7 tomorrow daysAgo14 teamId none).length).map
          (fun n : Nat => (n : Int))).take L := by
  have h1 : getWeeklyLeaderboard stats users daysAgo7 tomorrow daysAgo14 teamId (some L) =
      (getWeeklyLeaderboard stats users daysAgo7 tomorrow daysAgo14 teamId none).take L := by
    show applyLimit (some L)
        (computeRankChanges (buildLeaderboardFromStats stats users daysAgo7 tomorrow teamId)
          (buildLeaderboardFromStats stats users daysAgo14 daysAgo7 teamId)) =
      (applyLimit none
        (computeRankChanges (buildLeaderboardFromStats stats users daysAgo7 tomorrow teamId)
          (buildLeaderboardFromStats stats users daysAgo14 daysAgo7 teamId))).take L
    rw [applyLimit_some _ _ hL, applyLimit_none]
  refine ⟨h1, ?_⟩
  rw [h1, List.map_take]
  congr 1
  show (computeRankChanges (buildLeaderboardFromStats stats users daysAgo7 tomorrow teamId)
      (buildLeaderboardFromStats stats users daysAgo14 daysAgo7 teamId)).map (fun e => e.rank) =
    (List.range' 1 (computeRankChanges
      (buildLeaderboardFromStats stats users daysAgo7 tomorrow teamId)
      (buildLeaderboardFromStats stats users daysAgo14 daysAgo7 teamId)).length).map
        (fun n : Nat => (n : Int))
  rw [map_rank_computeRankChanges, computeRankChanges_length]
  show (rankEntries _).map _ = (List.range' 1 (rankEntries _).length).map _
  rw [map_rank_rankEntries, rankEntries_length]

/-- C6 counterexample: a supplied limit of 0 is falsy in JavaScript, so
the query returns the full one-entry leaderboard instead of the first 0
entries. -/
theorem limit_zero_counterexample :
    getWeeklyLeaderboard [exStat1] [exUser1] "2025-01-01" "2025-01-09" "2024-12-24"
        none (some 0) ≠
      (getWeeklyLeaderboard [exStat1] [exUser1] "2025-01-01" "2025-01-09" "2024-12-24"
        none none).take 0 := by
  with_unfolding_all decide

/-- C6 witness: the amended statement at a concrete store and limit 1. -/
theorem limit_after_ranking_witness :
    ((1 : Nat) ≠ 0) ∧
    (getWeeklyLeaderboard [exStat1] [exUser1] "2025-01-01" "2025-01-09" "2024-12-24"
        none (some 1) =
      (getWeeklyLeaderboard [exStat1] [exUser1] "2025-01-01" "2025-01-09" "2024-12-24"
        none none).take 1 ∧
    (getWeeklyLeaderboard [exStat1] [exUser1] "2025-01-01" "2025-01-09" "2024-12-24"
        none (some 1)).map (fun e => e.rank) =
      ((List.range' 1
        (getWeeklyLeaderboard [exStat1] [exUser1] "2025-01-01" "2025-01-09" "2024-12-24"
          none none).length).map (fun n : Nat => (n : Int))).take 1) :=
  ⟨by decide, limit_after_ranking [exStat1] [exUser1] "2025-01-01" "2025-01-09" "2024-12-24"
    none 1 (by decide)⟩

/-- The user set of a bucketing fold collects exactly the users of the
starting bucket and of the folded day entries. -/
theorem foldl_accBucket_users :
    ∀ (l : List (String × ChartAgg)) (b : ChartAgg) (u : String),
      u ∈ (l.foldl accBucket b).uniqueUsers ↔
        u ∈ b.uniqueUsers ∨ ∃ p ∈ l, u ∈ p.2.uniqueUsers := by
  intro l
  induction l with
  | nil => intro b u; simp
  | cons a l ih =>
    intro b u
    rw [List.foldl_cons, ih]
    show (u ∈ a.2.uniqueUsers.foldl setAdd b.uniqueUsers ∨ _) ↔ _
    rw [mem_foldl_setAdd]
    simp only [List.mem_cons]
    constructor
    · rintro ((hb | ha) | ⟨p, hp, hu⟩)
      · exact Or.inl hb
      · exact Or.inr ⟨a, Or.inl rfl, ha⟩
      · exact Or.inr ⟨p, Or.inr hp, hu⟩
    · rintro (hb | ⟨p, hp | hp, hu⟩)
      · exact Or.inl (Or.inl hb)
      · subst hp; exact Or.inl (Or.inr hu)
      · exact Or.inr ⟨p, hp, hu⟩

/-- C7: For every daily aggregate series and every bucket mode, each
bucket's `totalTokens` and `totalCost` equal the sums of the per-day
totals of exactly the days whose bucket key maps to that bucket, and its
active-user set is the union of those days' user sets; in particular
summing all daily entries within a calendar week gives the week bucket's
totals. -/
theorem bucketize_coarsening (daily : List (String × ChartAgg))
    (mode : BucketBy) (k : String) :
    (mapGet (bucketize mode daily) k = none ↔
      daily.filter (fun p => getBucketKey p.1 mode = k) = []) ∧
    (∀ agg, mapGet (bucketize mode daily) k = some agg →
      agg.totalTokens = ((daily.filter fun p => getBucketKey p.1 mode = k).map
        (fun p => p.2.totalTokens)).sum ∧
      agg.totalCost = ((daily.filter fun p => getBucketKey p.1 mode = k).map
        (fun p => p.2.totalCost)).sum ∧
      (∀ u, u ∈ agg.uniqueUsers ↔
        ∃ p ∈ daily.filter fun p => getBucketKey p.1 mode = k,
          u ∈ p.2.uniqueUsers)) := by
  unfold bucketize
  rw [mapGet_groupFold]
  cases hf : daily.filter fun p => decide (getBucketKey p.1 mode = k) with
  | nil =>
    constructor
    · simp
    · intro agg h
      exact absurd h (by simp)
  | cons a r =>
    constructor
    · constructor
      · intro h
        exact absurd h (by simp)
      · intro h
        exact absurd h (by simp)
    · intro agg h
      have hagg : agg = r.foldl accBucket (initBucket a) := by
        injection h with h2
        exact h2.symm
      subst hagg
      refine ⟨?_, ?_, ?_⟩
      · rw [foldl_additive accBucket (fun x => x.totalTokens)
          (fun p => p.2.totalTokens) (fun _ _ => rfl), List.map_cons, List.sum_cons]
        rfl
      · rw [foldl_additive accBucket (fun x => x.totalCost)
          (fun p => p.2.totalCost) (fun _ _ => rfl), List.map_cons, List.sum_cons]
        rfl
      · intro u
        rw [foldl_accBucket_users]
        show u ∈ a.2.uniqueUsers.foldl setAdd [] ∨ _ ↔ _
        rw [mem_foldl_setAdd]
        simp only [List.not_mem_nil, false_or, List.mem_cons]
        constructor
        · rintro (ha | ⟨p, hp, hu⟩)
          · exact ⟨a, Or.inl rfl, ha⟩
          · exact ⟨p, Or.inr hp, hu⟩
        · rintro ⟨p, hp | hp, hu⟩
          · subst hp; exact Or.inl hu
          · exact Or.inr ⟨p, hp, hu⟩

/-- C7 witness: the week bucket of Monday 2025-01-06 sums the two days of
that week and unions their user sets. -/
theorem bucketize_coarsening_witness :
    mapGet (bucketize BucketBy.week exDaily) "2025-01-06" =
      some (⟨12, 5, ["u1", "u2"]⟩ : ChartAgg) ∧
    ((⟨12, 5, ["u1", "u2"]⟩ : ChartAgg).totalTokens =
      ((exDaily.filter fun p => getBucketKey p.1 BucketBy.week = "2025-01-06").map
        (fun p => p.2.totalTokens)).sum ∧
    (⟨12, 5, ["u1", "u2"]⟩ : ChartAgg).totalCost =
      ((exDaily.filter fun p => getBucketKey p.1 BucketBy.week = "2025-01-06").map
        (fun p => p.2.totalCost)).sum ∧
    (∀ u, u ∈ (⟨12, 5, ["u1", "u2"]⟩ : ChartAgg).uniqueUsers ↔
      ∃ p ∈ exDaily.filter fun p => getBucketKey p.1 BucketBy.week = "2025-01-06",
        u ∈ p.2.uniqueUsers)) :=
  ⟨by with_unfolding_all decide,
    (bucketize_coarsening exDaily BucketBy.week "2025-01-06").2 _
      (by with_unfolding_all decide)⟩

/-- Every member of a rank-assigned list is a member of the input with
only its `rank` field changed. -/
theorem mem_assignRanks :
    ∀ (l : List LeaderboardEntry) (i : Nat) (e : LeaderboardEntry),
      e ∈ assignRanks l i → ∃ e0 ∈ l, e = { e0 with rank := e.rank } := by
  intro l
  induction l with
  | nil => intro i e h; exact absurd h (by simp [assignRanks])
  | cons f r ih =>
    intro i e h
    rcases List.mem_cons.mp h with rfl | h2
    · exact ⟨f, List.mem_cons_self f r, rfl⟩
    · obtain ⟨e0, h0, he⟩ := ih (i + 1) e h2
      exact ⟨e0, List.mem_cons_of_mem f h0, he⟩

/-- Every member of the ranked output is a member of the unranked input
with only its `rank` field changed. -/
theorem mem_rankEntries (l : List LeaderboardEntry) (e : LeaderboardEntry)
    (h : e ∈ rankEntries l) : ∃ e0 ∈ l, e = { e0 with rank := e.rank } := by
  obtain ⟨e0, h0, he⟩ := mem_assignRanks (sortByCostDesc l) 0 e h
  exact ⟨e0, (List.perm_insertionSort costGE l).mem_iff.mp h0, he⟩

/-- Every entry produced by the aggregate-decoration step carries
`rankChange = null`. -/
theorem entriesFromAggs_rankChange (users : List User) (teamId : Option String)
    (aggs : List (String × Aggregate)) (e : LeaderboardEntry)
    (h : e ∈ entriesFromAggs users teamId aggs) : e.rankChange = RankChange.null := by
  unfold entriesFromAggs at h
  obtain ⟨p, _, he⟩ := List.mem_filterMap.mp h
  cases hu : userLookup users p.1 with
  | none => rw [hu] at he; exact absurd he (by simp)
  | some u =>
    rw [hu] at he
    by_cases hs : teamSkip teamId u
    · simp [hs] at he
    · simp [hs] at he
      rw [← he]
      rfl

/-- C8: Every entry returned by the all-time leaderboard query has
`rankChange = null`: the all-time period defines no previous window and no
rank-change computation is applied to its entries. -/
theorem allTime_rankChange_null (stats : List DailyStat) (users : List User)
    (tomorrow : String) (teamId : Option String) (limit : Option Nat)
    (e : LeaderboardEntry)
    (h : e ∈ getAllTimeLeaderboard stats users tomorrow teamId limit) :
    e.rankChange = RankChange.null := by
  have h2 : e ∈ buildLeaderboardFromStats stats users "2000-01-01" tomorrow teamId := by
    cases limit with
    | none => exact h
    | some n =>
      by_cases hn : n = 0
      · subst hn
        exact h
      · rw [show getAllTimeLeaderboard stats users tomorrow teamId (some n) =
            (buildLeaderboardFromStats stats users "2000-01-01" tomorrow teamId).take n
            from applyLimit_some n _ hn] at h
        exact List.take_subset n _ h
  obtain ⟨e0, h0, he⟩ := mem_rankEntries _ e h2
  rw [he]
  exact entriesFromAggs_rankChange _ _ _ e0 h0

/-- C8 witness: the concrete all-time entry of the sample store carries a
null rank change. -/
theorem allTime_rankChange_null_witness :
    ((⟨"u1", some "Alice", "SU1", 1, 2, 3, 4, 10, 5, ["opus"], 1, RankChange.null, 100⟩ :
      LeaderboardEntry) ∈ getAllTimeLeaderboard [exStat1] [exUser1] "2025-01-09" none none) ∧
    (⟨"u1", some "Alice", "SU1", 1, 2, 3, 4, 10, 5, ["opus"], 1, RankChange.null, 100⟩ :
      LeaderboardEntry).rankChange = RankChange.null :=
  ⟨by with_unfolding_all decide,
    allTime_rankChange_null [exStat1] [exUser1] "2025-01-09" none none _
      (by with_unfolding_all decide)⟩

/-- Lookup after a fold of `Map.set`s with computed keys: the last write
wins. -/
theorem mapGet_foldl_mapSet {α κ ν : Type} [DecidableEq κ]
    (f : α → κ) (g : α → ν) :
    ∀ (l : List α) (m : List (κ × ν)) (k : κ),
      mapGet (l.foldl (fun m a => mapSet m (f a) (g a)) m) k =
        match l.reverse.find? (fun a => f a = k) with
        | some a => some (g a)
        | none => mapGet m k := by
  intro l
  induction l with
  | nil => intro m k; rfl
  | cons a l ih =>
    intro m k
    rw [List.foldl_cons, ih, List.reverse_cons, List.find?_append]
    cases l.reverse.find? (fun a => decide (f a = k)) with
    | some b => rfl
    | none =>
      simp only [Option.none_or]
      by_cases h : f a = k
      · rw [List.find?_cons_of_pos _ (by simpa using h)]
        show mapGet (mapSet m (f a) (g a)) k = some (g a)
        rw [mapGet_mapSet, if_pos h]
      · rw [List.find?_cons_of_neg _ (by simpa using h)]
        show mapGet (mapSet m (f a) (g a)) k = mapGet m k
        rw [mapGet_mapSet, if_neg h]

/-- C9 amended: series keys are sanitized to the characters
`[A-Za-z0-9_-]`, truncated to 39 characters, with an empty result replaced
by `"unknown"`; colliding sanitized names are not disambiguated — in each
chart row a key holds the value of the last top-N user (in top order)
whose sanitized name equals that key, overwriting any earlier colliding
user's value. -/
theorem sanitize_charset_and_overwrite :
    (∀ s : String, (sanitizeName s).length ≤ 39 ∧ sanitizeName s ≠ "" ∧
      (sanitizeName s).data.all allowedChar = true) ∧
    (∀ (userNames : List (String × String)) (dayMap : List (String × Rat))
        (ids : List String) (k : String),
      mapGet (buildRow userNames dayMap ids) k =
        match ids.reverse.find? (fun uid => (mapGet userNames uid).getD "unknown" = k) with
        | some uid => some (roundCost ((mapGet dayMap uid).getD 0))
        | none => none) := by
  constructor
  · intro s
    unfold sanitizeName
    by_cases h : ((s.data.filter allowedChar).take 39).isEmpty
    · rw [if_pos h]
      refine ⟨by decide, by decide, by decide⟩
    · rw [if_neg h]
      refine ⟨?_, ?_, ?_⟩
      · show ((s.data.filter allowedChar).take 39).length ≤ 39
        rw [List.length_take]
        exact min_le_left 39 _
      · intro hcon
        have : (s.data.filter allowedChar).take 39 = [] := congrArg String.data hcon
        rw [this] at h
        exact h rfl
      · rw [List.all_eq_true]
        intro c hc
        exact List.of_mem_filter (List.mem_of_mem_take hc)
  · intro userNames dayMap ids k
    have h := mapGet_foldl_mapSet
      (fun uid => (mapGet userNames uid).getD "unknown")
      (fun uid => roundCost ((mapGet dayMap uid).getD 0)) ids [] k
    cases hfind : ids.reverse.find?
        (fun uid => decide ((mapGet userNames uid).getD "unknown" = k)) with
    | some uid => rw [hfind] at h; exact h
    | none => rw [hfind] at h; exact h

/-- C9 counterexample: two distinct top users whose display names
`"a!"` and `"a?"` both sanitize to the series key `"a"`; the chart keeps a
single key holding only the later (lower-cost) user's value, and the
user list exposes the duplicated display name. -/
theorem sanitize_collision_counterexample :
    sanitizeName "a!" = sanitizeName "a?" ∧
    getUserDailyUsageChart
        [⟨"u1", "2025-01-02", none, 0, 0, 0, 0, 0, 5, [], 0⟩,
         ⟨"u2", "2025-01-02", none, 0, 0, 0, 0, 0, 3, [], 0⟩]
        [⟨"u1", "S1", "T", some "a!"⟩, ⟨"u2", "S2", "T", some "a?"⟩]
        "2025-01-01" "2025-01-03" (some 2) none =
      ([("u1", "a"), ("u2", "a")], [("2025-01-02", [("a", 3)])]) := by
  with_unfolding_all decide

/-- Entries of a team-filtered leaderboard resolve to users of that team
(when the team id is non-empty, so the filter is not skipped). -/
theorem entriesFromAggs_team (users : List User) (t : String) (ht : t ≠ "")
    (aggs : List (String × Aggregate)) (e : LeaderboardEntry)
    (h : e ∈ entriesFromAggs users (some t) aggs) :
    ∃ u : User, userLookup users e.userId = some u ∧ u.slackTeamId = t := by
  unfold entriesFromAggs at h
  obtain ⟨p, _, he⟩ := List.mem_filterMap.mp h
  cases hu : userLookup users p.1 with
  | none => rw [hu] at he; exact absurd he (by simp)
  | some u =>
    rw [hu] at he
    by_cases hs : teamSkip (some t) u
    · simp [hs] at he
    · simp [hs] at he
      have hteam : u.slackTeamId = t := by
        unfold teamSkip at hs
        rcases eq_or_ne u.slackTeamId t with hq | hq
        · exact hq
        · exact absurd (by simp [ht, hq]) hs
      have huid : e.userId = p.1 := by
        rw [← he]
        rfl
      rw [huid]
      exact ⟨u, hu, hteam⟩

/-- The keys of a map are untouched or extended by `Map.set`. -/
theorem keys_mapSet {κ ν : Type} [DecidableEq κ] :
    ∀ (m : List (κ × ν)) (k : κ) (val : ν),
      (mapSet m k val).map Prod.fst = m.map Prod.fst ∨
      (mapSet m k val).map Prod.fst = m.map Prod.fst ++ [k] := by
  intro m
  induction m with
  | nil => intro k val; exact Or.inr rfl
  | cons p r ih =>
    intro k val
    obtain ⟨a, b⟩ := p
    by_cases h : a = k
    · subst h
      left
      simp [mapSet]
    · rcases ih k val with h2 | h2 <;>
        simp [mapSet, h, h2]

/-- A map with duplicate-free keys keeps duplicate-free keys under
`Map.set`. -/
theorem nodup_keys_mapSet {κ ν : Type} [DecidableEq κ]
    (m : List (κ × ν)) (k : κ) (val : ν)
    (h : (m.map Prod.fst).Nodup) : ((mapSet m k val).map Prod.fst).Nodup := by
  induction m with
  | nil => simp [mapSet]
  | cons p r ih =>
    obtain ⟨a, b⟩ := p
    rw [List.map_cons, List.nodup_cons] at h
    by_cases hak : a = k
    · subst hak
      simpa [mapSet, List.nodup_cons] using h
    · rw [show mapSet ((a, b) :: r) k val = (a, b) :: mapSet r k val by
        simp [mapSet, hak]]
      rw [List.map_cons, List.nodup_cons]
      refine ⟨?_, ih h.2⟩
      rcases keys_mapSet r k val with h2 | h2 <;> rw [h2]
      · exact h.1
      · intro hmem
        rcases List.mem_append.mp hmem with hmem | hmem
        · exact h.1 hmem
        · have hka : a = k := List.mem_singleton.mp hmem
          exact hak hka

/-- A group-by fold over any input has duplicate-free keys. -/
theorem nodup_keys_groupFold {α κ β : Type} [DecidableEq κ] (key : α → κ)
    (init : α → β) (acc : β → α → β) (l : List α) :
    ((groupFold key init acc l).map Prod.fst).Nodup := by
  unfold groupFold
  suffices h : ∀ (m : List (κ × β)), (m.map Prod.fst).Nodup →
      ((l.foldl (groupStep key init acc) m).map Prod.fst).Nodup from
    h [] (by simp)
  induction l with
  | nil => intro m hm; exact hm
  | cons a l ih =>
    intro m hm
    rw [List.foldl_cons]
    exact ih _ (nodup_keys_mapSet m (key a) _ hm)

/-- The user ids of the decorated entries form a sublist of the aggregate
map's keys. -/
theorem entriesFromAggs_userIds_sublist (users : List User)
    (teamId : Option String) :
    ∀ aggs : List (String × Aggregate),
      ((entriesFromAggs users teamId aggs).map (fun e => e.userId)).Sublist
        (aggs.map Prod.fst) := by
  intro aggs
  induction aggs with
  | nil => simp [entriesFromAggs]
  | cons p r ih =>
    unfold entriesFromAggs
    unfold entriesFromAggs at ih
    cases hu : userLookup users p.1 with
    | none =>
      simp only [List.filterMap_cons, hu, List.map_cons]
      exact ih.trans (List.sublist_cons_self p.1 (r.map Prod.fst))
    | some u =>
      by_cases hs : teamSkip teamId u
      · simp only [List.filterMap_cons, hu, hs, if_true, List.map_cons]
        exact ih.trans (List.sublist_cons_self p.1 (r.map Prod.fst))
      · simp only [List.filterMap_cons, hu, hs, if_false, List.map_cons, entryOfAgg]
        exact List.Sublist.cons₂ p.1 ih

/-- Rank assignment keeps the user ids. -/
theorem map_userId_assignRanks :
    ∀ (l : List LeaderboardEntry) (i : Nat),
      (assignRanks l i).map (fun e => e.userId) = l.map (fun e => e.userId) := by
  intro l
  induction l with
  | nil => intro i; rfl
  | cons e r ih => intro i; simp [assignRanks, ih]

/-- Well-formedness of every leaderboard the engine builds: no two entries
share a user id (so the Nodup hypothesis of the rank-change
characterization holds for every previous leaderboard the engine passes
in). -/
theorem buildLeaderboard_userIds_nodup (stats : List DailyStat)
    (users : List User) (startDate endDate : String) (teamId : Option String) :
    ((buildLeaderboardFromStats stats users startDate endDate teamId).map
      (fun e => e.userId)).Nodup := by
  show ((rankEntries _).map (fun e => e.userId)).Nodup
  unfold rankEntries sortByCostDesc
  rw [map_userId_assignRanks]
  have hperm := (List.perm_insertionSort costGE
    (entriesFromAggs users teamId (buildAggregates
      (windowFilter stats startDate endDate)))).map (fun e => e.userId)
  rw [hperm.nodup_iff]
  exact (nodup_keys_groupFold _ _ _ _).sublist
    (entriesFromAggs_userIds_sublist users teamId _)

/-- C10: The single-user rank query distinguishes two absent cases: an
unknown userId yields `null` for the whole result, while a known user with
no aggregate in the window yields `{rank: null, totalParticipants: size of
that team's leaderboard, stats: null}` — and every entry counted by
`totalParticipants` belongs to the user's team. -/
theorem getUserRank_absent_cases (stats : List DailyStat) (users : List User)
    (uid startDate endDate : String) :
    (userLookup users uid = none →
      getUserRank stats users uid startDate endDate = none) ∧
    (∀ user : User, userLookup users uid = some user →
      (buildLeaderboardFromStats stats users startDate endDate
          (some user.slackTeamId)).find? (fun e => e.userId = uid) = none →
      getUserRank stats users uid startDate endDate =
        some ⟨none, (buildLeaderboardFromStats stats users startDate endDate
          (some user.slackTeamId)).length, none⟩ ∧
      (user.slackTeamId ≠ "" →
        ∀ e ∈ buildLeaderboardFromStats stats users startDate endDate
            (some user.slackTeamId),
          ∃ u : User, userLookup users e.userId = some u ∧
            u.slackTeamId = user.slackTeamId)) := by
  constructor
  · intro h
    unfold getUserRank
    rw [h]
  · intro user hu hf
    constructor
    · simp only [getUserRank, hu, hf]
    · intro ht e he
      obtain ⟨e0, h0, heq⟩ := mem_rankEntries _ e he
      obtain ⟨u, hul, hteam⟩ := entriesFromAggs_team users user.slackTeamId ht _ e0 h0
      have huid : e.userId = e0.userId := by rw [heq]
      rw [huid]
      exact ⟨u, hul, hteam⟩

/-- C10 witness: an unknown id gives a null result; a known user with no
stats in the window gets rank null, stats null, and a participant count of
1 (the one ranked teammate). -/
theorem getUserRank_absent_cases_witness :
    (getUserRank [exStat2] [exUser1, exUser2] "zz" "2025-01-01" "2025-01-09" = none) ∧
    (getUserRank [exStat2] [exUser1, exUser2] "u1" "2025-01-01" "2025-01-09" =
      some ⟨none, (buildLeaderboardFromStats [exStat2] [exUser1, exUser2]
        "2025-01-01" "2025-01-09" (some exUser1.slackTeamId)).length, none⟩ ∧
    (exUser1.slackTeamId ≠ "" →
      ∀ e ∈ buildLeaderboardFromStats [exStat2] [exUser1, exUser2]
          "2025-01-01" "2025-01-09" (some exUser1.slackTeamId),
        ∃ u : User, userLookup [exUser1, exUser2] e.userId = some u ∧
          u.slackTeamId = exUser1.slackTeamId)) :=
  ⟨(getUserRank_absent_cases [exStat2] [exUser1, exUser2] "zz"
      "2025-01-01" "2025-01-09").1 (by with_unfolding_all decide),
   (getUserRank_absent_cases [exStat2] [exUser1, exUser2] "u1"
      "2025-01-01" "2025-01-09").2 exUser1 (by with_unfolding_all decide)
      (by with_unfolding_all decide)⟩

end CCRank
